import Mathlib

/-!
Verification of the task-scheduling and derived-view core of the Taskify
calendar application, shallowly embedded from its TypeScript source
(App.tsx, CalendarMonthView.tsx, CalendarDayView.tsx, GoalTracker,
FocusMode, TaskListView).

Machine integers of the source are modelled as Nat or Int, JavaScript
strings as Lean strings, absent optional fields as Option.none, and the
stable Array.prototype.sort of ES2019 as List.mergeSort (which is stable).
-/

namespace Taskify

/-- Task priority, from `export type Priority` in App.tsx. -/
inductive Priority
  | low
  | medium
  | high
  | urgent
deriving DecidableEq, Repr

/-- Task/goal category, from `export type Category` in App.tsx. -/
inductive Category
  | work
  | personal
  | health
  | social
  | learning
  | other
deriving DecidableEq, Repr

/-- Recurring label, from the `recurring` field type in App.tsx. -/
inductive Recurring
  | daily
  | weekly
  | monthly
deriving DecidableEq, Repr

/-- A task record, from `export interface Task` in App.tsx. -/
structure Task where
  id : String
  title : String
  description : String
  date : String
  time : Option String
  priority : Priority
  category : Category
  completed : Bool
  recurring : Option Recurring
  reminder : Option Bool
  dependencies : Option (List String)
  createdAt : String
deriving DecidableEq, Repr

/-- A monthly goal record, from `export interface Goal` in App.tsx. -/
structure Goal where
  id : String
  title : String
  target : Int
  current : Int
  month : String
  category : Category
deriving DecidableEq, Repr

/-- A partial task record, modelling the TypeScript `Partial<Task>`
argument of `updateTask`: each field is either absent or an override. -/
structure TaskUpdate where
  id : Option String := Option.none
  title : Option String := Option.none
  description : Option String := Option.none
  date : Option String := Option.none
  time : Option (Option String) := Option.none
  priority : Option Priority := Option.none
  category : Option Category := Option.none
  completed : Option Bool := Option.none
  recurring : Option (Option Recurring) := Option.none
  reminder : Option (Option Bool) := Option.none
  dependencies : Option (Option (List String)) := Option.none
  createdAt : Option String := Option.none

/-- Field-wise merge of a partial update into a task, modelling the
JavaScript spread `{ ...t, ...updates }` in App.tsx `updateTask`. -/
def mergeTask (t : Task) (u : TaskUpdate) : Task :=
  { id := u.id.getD t.id
    title := u.title.getD t.title
    description := u.description.getD t.description
    date := u.date.getD t.date
    time := u.time.getD t.time
    priority := u.priority.getD t.priority
    category := u.category.getD t.category
    completed := u.completed.getD t.completed
    recurring := u.recurring.getD t.recurring
    reminder := u.reminder.getD t.reminder
    dependencies := u.dependencies.getD t.dependencies
    createdAt := u.createdAt.getD t.createdAt }

/-- App.tsx `updateTask`: merge fields into the record whose id matches. -/
def updateTask (tasks : List Task) (id : String) (updates : TaskUpdate) : List Task :=
  tasks.map (fun t => if t.id = id then mergeTask t updates else t)

/-- App.tsx `deleteTask`: remove the record whose id matches. -/
def deleteTask (tasks : List Task) (id : String) : List Task :=
  tasks.filter (fun t => t.id != id)

/-- App.tsx `toggleTaskComplete`: flip the completed flag of the record
whose id matches. -/
def toggleTaskComplete (tasks : List Task) (id : String) : List Task :=
  tasks.map (fun t => if t.id = id then { t with completed := !t.completed } else t)

/-- Heat-map load classification of a day, the return type of
`getTaskLoad` in CalendarMonthView.tsx. -/
inductive Load
  | none
  | low
  | medium
  | high
  | urgent
deriving DecidableEq, Repr

/-- CalendarMonthView.tsx `getTaskLoad`: classify a day by its tasks. -/
def getTaskLoad (tasks : List Task) (date : String) : Load :=
  let dayTasks := tasks.filter (fun t => t.date == date)
  let urgentCount := (dayTasks.filter (fun t => t.priority == Priority.urgent)).length
  let highCount := (dayTasks.filter (fun t => t.priority == Priority.high)).length
  if urgentCount > 0 then Load.urgent
  else if highCount > 1 then Load.high
  else if dayTasks.length > 3 then Load.medium
  else if dayTasks.length > 0 then Load.low
  else Load.none

/-- The load classification exactly as the specification words it:
`urgent` if any task has urgent priority; else `high` if at least 2 tasks
have high priority; else `medium` if the day task count is greater than 3;
else `low` if the day task count is greater than 0; else `none`. -/
def specLoad (tasks : List Task) (date : String) : Load :=
  let dayTasks := tasks.filter (fun t => t.date == date)
  if dayTasks.any (fun t => t.priority == Priority.urgent) then Load.urgent
  else if 2 ≤ dayTasks.countP (fun t => t.priority == Priority.high) then Load.high
  else if 3 < dayTasks.length then Load.medium
  else if 0 < dayTasks.length then Load.low
  else Load.none

/-- Integer model of `String.prototype.localeCompare` on the plain ASCII
date and time keys used by the app: negative, zero or positive according
to lexicographic order. -/
def strCmpInt (a b : String) : Int :=
  if a < b then -1 else if b < a then 1 else 0

/-- The list-view sort comparator from TaskListView.tsx: compare by date,
then timed tasks by time, a timed task before an untimed one, two untimed
tasks tie. -/
def taskCmp (a b : Task) : Int :=
  let dateCompare := strCmpInt a.date b.date
  if dateCompare ≠ 0 then dateCompare
  else
    match a.time, b.time with
    | Option.some ta, Option.some tb => strCmpInt ta tb
    | Option.some _, Option.none => -1
    | Option.none, Option.some _ => 1
    | Option.none, Option.none => 0

/-- The non-strict order induced by the comparator: `a` may precede `b`
in a stable comparator sort exactly when the comparator is nonpositive. -/
def taskLe (a b : Task) : Bool :=
  decide (taskCmp a b ≤ 0)

/-- Substring test modelling `String.prototype.includes`. -/
def strIncludes (s sub : String) : Bool :=
  (List.range (s.length + 1)).any (fun i => sub.isPrefixOf (s.drop i))

/-- The list-view filter from TaskListView.tsx: optional inclusive start
and end dates (an empty string means no bound, matching JavaScript
truthiness) and an optional case-insensitive substring query against
title or description. -/
def filterTasks (tasks : List Task) (startDate endDate searchQuery : String) : List Task :=
  let f1 := if startDate ≠ "" then tasks.filter (fun t => decide (startDate ≤ t.date)) else tasks
  let f2 := if endDate ≠ "" then f1.filter (fun t => decide (t.date ≤ endDate)) else f1
  if searchQuery.trim ≠ "" then
    let query := searchQuery.toLower
    f2.filter (fun t => strIncludes t.title.toLower query || strIncludes t.description.toLower query)
  else f2

/-- The list-view sort from TaskListView.tsx, a stable sort by the
comparator (ES2019 `Array.prototype.sort` is stable). -/
def sortTasksByDateTime (l : List Task) : List Task :=
  l.mergeSort taskLe

/-- The filtered and sorted task list that the list view renders. -/
def listViewTasks (tasks : List Task) (startDate endDate searchQuery : String) : List Task :=
  sortTasksByDateTime (filterTasks tasks startDate endDate searchQuery)

/-- The ordering the specification describes for the list view: ascending
by date; within equal dates timed tasks ascending by time, any timed task
before any untimed one, untimed tasks tied. The time part. -/
def timeLeP : Option String → Option String → Prop
  | Option.some a, Option.some b => a ≤ b
  | Option.some _, Option.none => True
  | Option.none, Option.some _ => False
  | Option.none, Option.none => True

/-- The full list-view ordering as the specification words it. -/
def specListOrder (a b : Task) : Prop :=
  a.date < b.date ∨ (a.date = b.date ∧ timeLeP a.time b.time)

/-- Gregorian leap-year test, as JavaScript `Date` implements it. -/
def isLeapYear (y : Int) : Bool :=
  (y.emod 4 == 0 && y.emod 100 != 0) || y.emod 400 == 0

/-- Number of days in month `m` (0-based, January = 0) of year `y`,
modelling `new Date(year, month + 1, 0).getDate()` in
CalendarMonthView.tsx. -/
def daysInMonth (y : Int) (m : Nat) : Nat :=
  if m = 0 then 31
  else if m = 1 then (if isLeapYear y then 29 else 28)
  else if m = 2 then 31
  else if m = 3 then 30
  else if m = 4 then 31
  else if m = 5 then 30
  else if m = 6 then 31
  else if m = 7 then 31
  else if m = 8 then 30
  else if m = 9 then 31
  else if m = 10 then 30
  else 31

/-- Days from the civil epoch 1970-01-01 to year `y`, month `m`
(1-based), day `d`, the standard civil-calendar conversion underlying
JavaScript `Date`. -/
def daysFromCivil (y : Int) (m d : Nat) : Int :=
  let yAdj : Int := if m ≤ 2 then y - 1 else y
  let era : Int := Int.fdiv yAdj 400
  let yoe : Nat := (yAdj - era * 400).toNat
  let mp : Nat := if m > 2 then m - 3 else m + 9
  let doy : Nat := (153 * mp + 2) / 5 + d - 1
  let doe : Nat := yoe * 365 + yoe / 4 - yoe / 100 + doy
  era * 146097 + (doe : Int) - 719468

/-- Weekday index of the 1st of month `m` (0-based) of year `y`, with
Sunday = 0, modelling `new Date(year, month, 1).getDay()` in
CalendarMonthView.tsx. Day 0 of the epoch, 1970-01-01, was a Thursday. -/
def startingDayOfWeek (y : Int) (m : Nat) : Nat :=
  ((daysFromCivil y (m + 1) 1 + 4).emod 7).toNat

/-- The month grid built by the `days` loop in CalendarMonthView.tsx:
`startingDayOfWeek` leading null cells, then one cell per day 1..last. -/
def monthGridCells (y : Int) (m : Nat) : List (Option Nat) :=
  List.replicate (startingDayOfWeek y m) Option.none
    ++ (List.range' 1 (daysInMonth y m)).map Option.some

/-- Inverse civil-calendar conversion: the (year, month, day) of a day
number counted from 1970-01-01, underlying `Date.prototype.toISOString`. -/
def civilFromDays (z0 : Int) : Int × Nat × Nat :=
  let z := z0 + 719468
  let era : Int := Int.fdiv z 146097
  let doe : Nat := (z - era * 146097).toNat
  let yoe : Nat := (doe - doe / 1460 + doe / 36524 - doe / 146096) / 365
  let y : Int := (yoe : Int) + era * 400
  let doy : Nat := doe - (365 * yoe + yoe / 4 - yoe / 100)
  let mp : Nat := (5 * doy + 2) / 153
  let d : Nat := doy - (153 * mp + 2) / 5 + 1
  let m : Nat := if mp < 10 then mp + 3 else mp - 9
  (if m ≤ 2 then y + 1 else y, m, d)

/-- Zero-padded two-digit decimal rendering, as in an ISO date string. -/
def pad2 (n : Nat) : String :=
  if n < 10 then "0" ++ toString n else toString n

/-- Canonical `YYYY-MM-DD` rendering of a civil date triple. -/
def formatCivil (c : Int × Nat × Nat) : String :=
  toString c.1 ++ "-" ++ pad2 c.2.1 ++ "-" ++ pad2 c.2.2

/-- Canonical `YYYY-MM-DD` key of a day number counted from 1970-01-01. -/
def dayNumberKey (d : Int) : String :=
  formatCivil (civilFromDays d)

/-- A point in time: minutes since the epoch (UTC) together with the
timezone offset in minutes (local wall-clock = UTC + offset). -/
structure Instant where
  epochMinutes : Int
  tzOffsetMinutes : Int
deriving DecidableEq, Repr

/-- The UTC day number of a point in time. -/
def utcDayNumber (i : Instant) : Int :=
  Int.fdiv i.epochMinutes 1440

/-- The local-calendar day number of a point in time. -/
def localDayNumber (i : Instant) : Int :=
  Int.fdiv (i.epochMinutes + i.tzOffsetMinutes) 1440

/-- The date-key function the app uses everywhere:
`pointInTime.toISOString().split('T')[0]`, as in App.tsx,
CalendarDayView.tsx, CalendarMonthView.tsx and FocusMode.tsx.
`toISOString` formats the UTC instant, so this is the key of the UTC
calendar day. -/
def dateKey (i : Instant) : String :=
  dayNumberKey (utcDayNumber i)

/-- The key of the local calendar day of a point in time, written from
the specification's words (the local calendar day, not UTC), for
comparison against `dateKey`. -/
def localCalendarDayKey (i : Instant) : String :=
  dayNumberKey (localDayNumber i)

/-- Whether a day qualifies for the streak: the filter
`t.date === dateStr && t.completed` from `calculateStreak` in App.tsx
finds at least one task. -/
def streakQualifies (tasks : List Task) (d : Int) : Bool :=
  (tasks.filter (fun t => t.date == dayNumberKey d && t.completed)).length != 0

/-- The streak walk from `calculateStreak` in App.tsx: starting at the
given day and walking backward one day at a time, count consecutive days
with at least one completed task. The source loop is `while (true)`;
`fuel` bounds the unrolling of that unbounded loop, and the theorems hold
for every sufficiently large fuel. -/
def calculateStreak (tasks : List Task) (today : Int) : Nat → Nat
  | 0 => 0
  | fuel + 1 =>
    if streakQualifies tasks today then calculateStreak tasks (today - 1) fuel + 1 else 0

/-- The focus-timer state of FocusMode.tsx: `pomodoroTime` (seconds
remaining), `isRunning`, `isBreak` and the completed-pomodoro counter. -/
structure FocusState where
  pomodoroTime : Nat
  isRunning : Bool
  isBreak : Bool
  completedPomodoros : Nat
deriving DecidableEq, Repr

/-- The expiry branch of the FocusMode.tsx effect when the timer reaches
0: stop; coming out of a break reset to 25:00 of focus, otherwise count
one completed pomodoro and start a 5:00 break. -/
def focusExpire (s : FocusState) : FocusState :=
  if s.isBreak then
    { pomodoroTime := 25 * 60
      isRunning := false
      isBreak := false
      completedPomodoros := s.completedPomodoros }
  else
    { pomodoroTime := 5 * 60
      isRunning := false
      isBreak := true
      completedPomodoros := s.completedPomodoros + 1 }

/-- The pure content of the FocusMode.tsx effect, re-run after every
state change: when the remaining time is 0, perform the phase
transition; otherwise the effect only manages the interval. -/
def focusEffect (s : FocusState) : FocusState :=
  if s.pomodoroTime = 0 then focusExpire s else s

/-- One elapsed second of the focus timer: while running with time left
the interval fires and decrements the remaining time, and the effect then
re-runs on the new state; otherwise no tick fires and the effect's check
of the current state stands. -/
def focusTick (s : FocusState) : FocusState :=
  if s.isRunning && s.pomodoroTime != 0 then
    focusEffect { s with pomodoroTime := s.pomodoroTime - 1 }
  else
    focusEffect s

/-- The rank each priority sorts by in FocusMode.tsx `todayTasks`:
urgent first. -/
def priorityOrder : Priority → Nat
  | Priority.urgent => 0
  | Priority.high => 1
  | Priority.medium => 2
  | Priority.low => 3

/-- The comparator order of the focus queue: nonpositive comparator
difference, i.e. rank of the first at most rank of the second. -/
def priorityLe (a b : Task) : Bool :=
  decide (priorityOrder a.priority ≤ priorityOrder b.priority)

/-- FocusMode.tsx `todayTasks`, the focus queue: tasks dated today and
not completed, stably sorted by priority rank. -/
def todayTasks (tasks : List Task) (today : String) : List Task :=
  (tasks.filter (fun t => t.date == today && !t.completed)).mergeSort priorityLe

/-- GoalTracker.tsx `updateGoal` specialised to a `{ current: v }`
partial update, as `incrementGoal` and `decrementGoal` invoke it. -/
def updateGoalCurrent (goals : List Goal) (id : String) (v : Int) : List Goal :=
  goals.map (fun g => if g.id = id then { g with current := v } else g)

/-- GoalTracker.tsx `incrementGoal`: add 1 to the matching goal's
progress only when strictly below target. -/
def incrementGoal (goals : List Goal) (id : String) : List Goal :=
  match goals.find? (fun g => g.id == id) with
  | Option.some g =>
    if g.current < g.target then updateGoalCurrent goals id (g.current + 1) else goals
  | Option.none => goals

/-- GoalTracker.tsx `decrementGoal`: subtract 1 from the matching goal's
progress only when strictly above 0. -/
def decrementGoal (goals : List Goal) (id : String) : List Goal :=
  match goals.find? (fun g => g.id == id) with
  | Option.some g =>
    if 0 < g.current then updateGoalCurrent goals id (g.current - 1) else goals
  | Option.none => goals

/-- Helper to build a concrete task for the worked examples. -/
def mkTask (id date : String) (time : Option String) (p : Priority) (done : Bool) : Task :=
  { id := id
    title := id
    description := ""
    date := date
    time := time
    priority := p
    category := Category.other
    completed := done
    recurring := Option.none
    reminder := Option.none
    dependencies := Option.none
    createdAt := "" }

/-- Task A of the specification's list-view example. -/
def taskA : Task := mkTask "A" "2024-06-01" (Option.some "09:00") Priority.medium false

/-- Task B of the specification's list-view example. -/
def taskB : Task := mkTask "B" "2024-06-01" Option.none Priority.medium false

/-- Task C of the specification's list-view example. -/
def taskC : Task := mkTask "C" "2024-06-01" (Option.some "08:00") Priority.medium false

/-- The urgent task of the specification's end-to-end scenario. -/
def taskShip : Task := mkTask "Ship report" "2024-06-03" Option.none Priority.urgent false

/-- The low-priority task of the specification's end-to-end scenario. -/
def taskGym : Task := mkTask "Gym" "2024-06-03" Option.none Priority.low false

/-- The instant 2024-06-02 22:00 UTC in a UTC+02:00 timezone, where the
local calendar day (2024-06-03) differs from the UTC day. -/
def cexInstant : Instant :=
  { epochMinutes := 19876 * 1440 + 1320, tzOffsetMinutes := 120 }

/-- A concrete goal already at its target, for the clamp witness. -/
def goalRead : Goal :=
  { id := "g1", title := "Read 3 books", target := 3, current := 3,
    month := "2024-06", category := Category.learning }

/-- Completed tasks on the three consecutive days ending at day number
19877 (2024-06-03), and none before, for the streak witness. -/
def streakTasks : List Task :=
  [ mkTask "t0" (dayNumberKey 19877) Option.none Priority.low true,
    mkTask "t1" (dayNumberKey 19876) Option.none Priority.medium true,
    mkTask "t2" (dayNumberKey 19875) Option.none Priority.high true ]

end Taskify

namespace Taskify

/-- Any-with-predicate restated through the positive count, to align the
specification's wording with the counting code. -/
theorem any_iff_countP_pos (l : List Task) (p : Task → Bool) :
    (l.any p = true) ↔ 0 < l.countP p := by
  rw [List.any_eq_true, List.countP_pos_iff]

/-- C1: for every task collection and day, the month-view load
classification computed by `getTaskLoad` is the strict first-match chain
the specification describes (`specLoad`); in particular a day with at
least one urgent task is classified urgent regardless of other tasks. -/
theorem claimC1_taskLoad (tasks : List Task) (date : String) :
    getTaskLoad tasks date = specLoad tasks date ∧
    ((∃ t ∈ tasks, t.date = date ∧ t.priority = Priority.urgent) →
      getTaskLoad tasks date = Load.urgent) := by
  have hmain : getTaskLoad tasks date = specLoad tasks date := by
    simp only [getTaskLoad, specLoad, ← List.countP_eq_length_filter, gt_iff_lt,
      any_iff_countP_pos]
    have h2 : (1 < (tasks.filter fun t => t.date == date).countP
        fun t => t.priority == Priority.high) ↔
        (2 ≤ (tasks.filter fun t => t.date == date).countP
        fun t => t.priority == Priority.high) := by omega
    simp only [h2]
  refine ⟨hmain, fun hex => ?_⟩
  rw [hmain]
  obtain ⟨t, ht, htd, htp⟩ := hex
  have hany : ((tasks.filter fun t => t.date == date).any
      fun t => t.priority == Priority.urgent) = true := by
    rw [List.any_eq_true]
    exact ⟨t, List.mem_filter.mpr ⟨ht, by simp [htd]⟩, by simp [htp]⟩
  simp only [specLoad, hany, if_true]

/-- C1 witness: the end-to-end scenario of the specification, a day with
one urgent and one low task is classified urgent. -/
theorem claimC1_taskLoad_witness :
    getTaskLoad [taskShip, taskGym] "2024-06-03" = Load.urgent :=
  (claimC1_taskLoad [taskShip, taskGym] "2024-06-03").2 (by decide)

/-- Mapping a function that fixes every member of a list leaves the
list unchanged. -/
theorem map_eq_self_of_mem {α : Type} (l : List α) (f : α → α) (h : ∀ a ∈ l, f a = a) :
    l.map f = l := by
  induction l with
  | nil => rfl
  | cons x xs ih =>
    rw [List.map_cons, h x (List.mem_cons_self x xs),
      ih (fun a ha => h a (List.mem_cons_of_mem x ha))]

/-- C9: updating, deleting or toggling an id that no task carries leaves
the collection unchanged; no error is raised (the operations are total). -/
theorem claimC9_unknown_id_noop (tasks : List Task) (id : String) (u : TaskUpdate)
    (h : ∀ t ∈ tasks, t.id ≠ id) :
    updateTask tasks id u = tasks ∧ deleteTask tasks id = tasks ∧
      toggleTaskComplete tasks id = tasks := by
  refine ⟨?_, ?_, ?_⟩
  · unfold updateTask
    exact map_eq_self_of_mem tasks _ (fun t ht => if_neg (h t ht))
  · unfold deleteTask
    rw [List.filter_eq_self]
    intro t ht
    simpa using h t ht
  · unfold toggleTaskComplete
    exact map_eq_self_of_mem tasks _ (fun t ht => if_neg (h t ht))

/-- C9 witness: the operations at an absent id on a concrete store. -/
theorem claimC9_unknown_id_noop_witness :
    updateTask [taskShip] "nope" {} = [taskShip] ∧ deleteTask [taskShip] "nope" = [taskShip] ∧
      toggleTaskComplete [taskShip] "nope" = [taskShip] :=
  claimC9_unknown_id_noop [taskShip] "nope" {} (by decide)

/-- C10: toggling completion twice with the same id restores the
original collection, and a single toggle flips exactly the completed
flag of the matching tasks, leaving every other field and every other
task unchanged (stated position by position). -/
theorem claimC10_toggle_involution (tasks : List Task) (id : String) :
    toggleTaskComplete (toggleTaskComplete tasks id) id = tasks ∧
    (toggleTaskComplete tasks id).length = tasks.length ∧
    ∀ i : Nat, (toggleTaskComplete tasks id)[i]? =
      (tasks[i]?).map (fun t => if t.id = id then { t with completed := !t.completed } else t) := by
  unfold toggleTaskComplete
  refine ⟨?_, by simp, fun i => by simp⟩
  rw [List.map_map]
  have hpt : ∀ t : Task,
      ((fun t : Task => if t.id = id then { t with completed := !t.completed } else t) ∘
        (fun t : Task => if t.id = id then { t with completed := !t.completed } else t)) t = t := by
    intro t
    obtain ⟨tid, ttl, tds, tdt, ttm, tpr, tct, tcp, trc, trm, tdp, tca⟩ := t
    by_cases h : tid = id
    · simp [Function.comp, h]
    · simp [Function.comp, h]
  exact map_eq_self_of_mem tasks _ (fun t _ => hpt t)

end Taskify

namespace Taskify

/-- C3 counterexample: the date-key function of the source is built on
`toISOString`, which formats the UTC instant, so at 2024-06-02 22:00 UTC
in a UTC+02:00 timezone it returns the UTC day 2024-06-02 while the
local calendar day is 2024-06-03. The claim that it produces the local
calendar day is false. -/
theorem claimC3_cex :
    dateKey cexInstant = "2024-06-02" ∧
    localCalendarDayKey cexInstant = "2024-06-03" ∧
    dateKey cexInstant ≠ localCalendarDayKey cexInstant := by
  refine ⟨by decide, by decide, by decide⟩

/-- C3 (amended): the date-key function produces the canonical
`YYYY-MM-DD` key of the UTC calendar day of the point in time, and it
agrees with the local calendar day whenever the timezone offset is
zero. -/
theorem claimC3_dateKey_utc (i : Instant) :
    dateKey i = dayNumberKey (utcDayNumber i) ∧
    (i.tzOffsetMinutes = 0 → dateKey i = localCalendarDayKey i) := by
  refine ⟨rfl, fun h => ?_⟩
  unfold dateKey localCalendarDayKey utcDayNumber localDayNumber
  rw [h, add_zero]

/-- C3 witness: at a zero-offset instant the date key is the local day
key. -/
theorem claimC3_dateKey_utc_witness :
    dateKey { epochMinutes := 1000, tzOffsetMinutes := 0 } =
      localCalendarDayKey { epochMinutes := 1000, tzOffsetMinutes := 0 } :=
  (claimC3_dateKey_utc { epochMinutes := 1000, tzOffsetMinutes := 0 }).2 rfl

/-- C7: with unique goal ids and every goal's progress within
`[0, target]`, incrementing and decrementing preserve the bounds; at a
bound the matching request leaves the whole collection unchanged (the
request is dropped, no error), and otherwise the matching goal's
progress moves by exactly one. -/
theorem claimC7_goal_clamp (goals : List Goal) (id : String)
    (hids : (goals.map Goal.id).Nodup)
    (hinv : ∀ g ∈ goals, 0 ≤ g.current ∧ g.current ≤ g.target) :
    (∀ g ∈ incrementGoal goals id, 0 ≤ g.current ∧ g.current ≤ g.target) ∧
    (∀ g ∈ decrementGoal goals id, 0 ≤ g.current ∧ g.current ≤ g.target) ∧
    (∀ g, goals.find? (fun x => x.id == id) = Option.some g →
      (g.current = g.target → incrementGoal goals id = goals) ∧
      (g.current = 0 → decrementGoal goals id = goals) ∧
      (g.current < g.target →
        incrementGoal goals id =
          goals.map (fun x => if x.id = id then { x with current := x.current + 1 } else x)) ∧
      (0 < g.current →
        decrementGoal goals id =
          goals.map (fun x => if x.id = id then { x with current := x.current - 1 } else x))) := by
  have hinc : ∀ g : Goal, goals.find? (fun x => x.id == id) = Option.some g →
      incrementGoal goals id =
        if g.current < g.target then updateGoalCurrent goals id (g.current + 1) else goals := by
    intro g h
    unfold incrementGoal
    rw [h]
  have hdec : ∀ g : Goal, goals.find? (fun x => x.id == id) = Option.some g →
      decrementGoal goals id =
        if 0 < g.current then updateGoalCurrent goals id (g.current - 1) else goals := by
    intro g h
    unfold decrementGoal
    rw [h]
  have hincn : goals.find? (fun x => x.id == id) = Option.none →
      incrementGoal goals id = goals := by
    intro h
    unfold incrementGoal
    rw [h]
  have hdecn : goals.find? (fun x => x.id == id) = Option.none →
      decrementGoal goals id = goals := by
    intro h
    unfold decrementGoal
    rw [h]
  have huniq : ∀ x ∈ goals, ∀ y ∈ goals, x.id = y.id → x = y :=
    fun x hx y hy hxy => List.inj_on_of_nodup_map hids hx hy hxy
  have hmem : ∀ g, goals.find? (fun x => x.id == id) = Option.some g → g ∈ goals :=
    fun g hg => List.mem_of_find?_eq_some hg
  have hid : ∀ g, goals.find? (fun x => x.id == id) = Option.some g → g.id = id := by
    intro g hg
    have := List.find?_some hg
    simpa using this
  have hbounds : ∀ (g : Goal) (v : Int),
      goals.find? (fun x => x.id == id) = Option.some g → 0 ≤ v → v ≤ g.target →
      ∀ x ∈ updateGoalCurrent goals id v, 0 ≤ x.current ∧ x.current ≤ x.target := by
    intro g v hg hv0 hvt x hx
    unfold updateGoalCurrent at hx
    obtain ⟨x0, hx0, rfl⟩ := List.mem_map.mp hx
    by_cases hxid : x0.id = id
    · have hx0g : x0 = g := huniq x0 hx0 g (hmem g hg) (hxid.trans (hid g hg).symm)
      rw [if_pos hxid]
      exact ⟨hv0, by rw [hx0g]; exact hvt⟩
    · rw [if_neg hxid]
      exact hinv x0 hx0
  refine ⟨?_, ?_, ?_⟩
  · intro g hg
    cases hfind : goals.find? (fun x => x.id == id) with
    | none => rw [hincn hfind] at hg; exact hinv g hg
    | some g0 =>
      rw [hinc g0 hfind] at hg
      by_cases hlt : g0.current < g0.target
      · rw [if_pos hlt] at hg
        have h0 := (hinv g0 (hmem g0 hfind)).1
        exact hbounds g0 (g0.current + 1) hfind (by omega) (by omega) g hg
      · rw [if_neg hlt] at hg
        exact hinv g hg
  · intro g hg
    cases hfind : goals.find? (fun x => x.id == id) with
    | none => rw [hdecn hfind] at hg; exact hinv g hg
    | some g0 =>
      rw [hdec g0 hfind] at hg
      by_cases hlt : 0 < g0.current
      · rw [if_pos hlt] at hg
        have h1 := (hinv g0 (hmem g0 hfind)).2
        exact hbounds g0 (g0.current - 1) hfind (by omega) (by omega) g hg
      · rw [if_neg hlt] at hg
        exact hinv g hg
  · intro g hg
    refine ⟨?_, ?_, ?_, ?_⟩
    · intro heq
      rw [hinc g hg, if_neg (by omega)]
    · intro heq
      rw [hdec g hg, if_neg (by omega)]
    · intro hlt
      rw [hinc g hg, if_pos hlt]
      unfold updateGoalCurrent
      apply List.map_congr_left
      intro x hx
      by_cases hxid : x.id = id
      · have hx0g : x = g := huniq x hx g (hmem g hg) (hxid.trans (hid g hg).symm)
        rw [if_pos hxid, if_pos hxid, hx0g]
      · rw [if_neg hxid, if_neg hxid]
    · intro hlt
      rw [hdec g hg, if_pos hlt]
      unfold updateGoalCurrent
      apply List.map_congr_left
      intro x hx
      by_cases hxid : x.id = id
      · have hx0g : x = g := huniq x hx g (hmem g hg) (hxid.trans (hid g hg).symm)
        rw [if_pos hxid, if_pos hxid, hx0g]
      · rw [if_neg hxid, if_neg hxid]

/-- C7 witness: incrementing a goal already at `current == target`
leaves the collection unchanged. -/
theorem claimC7_goal_clamp_witness :
    incrementGoal [goalRead] "g1" = [goalRead] :=
  ((claimC7_goal_clamp [goalRead] "g1" (by decide) (by decide)).2.2
    goalRead (by decide)).1 rfl

end Taskify

namespace Taskify

/-- A day qualifies for the streak exactly when some completed task is
dated that day, which is how the specification words the rule. -/
theorem streakQualifies_iff (tasks : List Task) (d : Int) :
    streakQualifies tasks d = true ↔
      ∃ t ∈ tasks, t.date = dayNumberKey d ∧ t.completed = true := by
  unfold streakQualifies
  rw [bne_iff_ne, ne_eq, ← List.countP_eq_length_filter]
  constructor
  · intro h
    have hpos : 0 < tasks.countP (fun t => t.date == dayNumberKey d && t.completed) := by omega
    obtain ⟨t, ht, hp⟩ := List.countP_pos_iff.mp hpos
    simp only [Bool.and_eq_true, beq_iff_eq] at hp
    exact ⟨t, ht, hp⟩
  · intro ⟨t, ht, hd, hc⟩
    have hpos : 0 < tasks.countP (fun t => t.date == dayNumberKey d && t.completed) :=
      List.countP_pos_iff.mpr ⟨t, ht, by simp [hd, hc]⟩
    omega

/-- C4: the streak is the number of consecutive calendar days, starting
at today's day and walking backward, on which at least one completed
task is dated (incomplete tasks do not disqualify a day); the walk stops
at the first day with no completed task. The source loop is unbounded;
the result holds for every fuel at least `n`, so no upper bound is
imposed by the computation. -/
theorem claimC4_streak (tasks : List Task) (today : Int) (n fuel : Nat)
    (hq : ∀ k, k < n → ∃ t ∈ tasks, t.date = dayNumberKey (today - (k : Int)) ∧ t.completed = true)
    (hstop : ¬ ∃ t ∈ tasks, t.date = dayNumberKey (today - (n : Int)) ∧ t.completed = true)
    (hfuel : n ≤ fuel) :
    calculateStreak tasks today fuel = n := by
  induction n generalizing today fuel with
  | zero =>
    have hqf : streakQualifies tasks today = false := by
      rw [Bool.eq_false_iff, ne_eq, streakQualifies_iff]
      simpa using hstop
    cases fuel with
    | zero => rfl
    | succ f => simp [calculateStreak, hqf]
  | succ m ih =>
    cases fuel with
    | zero => omega
    | succ f =>
      have hqt : streakQualifies tasks today = true := by
        rw [streakQualifies_iff]
        simpa using hq 0 (by omega)
      have hrec : calculateStreak tasks (today - 1) f = m := by
        apply ih (today - 1) f
        · intro k hk
          have hcast : today - 1 - (k : Int) = today - ((k + 1 : Nat) : Int) := by
            push_cast
            ring
          rw [hcast]
          exact hq (k + 1) (by omega)
        · have hcast : today - 1 - (m : Int) = today - ((m + 1 : Nat) : Int) := by
            push_cast
            ring
          rw [hcast]
          exact hstop
        · omega
      simp [calculateStreak, hqt, hrec]

/-- C4 witness: completed tasks today, yesterday and the day before, and
none earlier, give a streak of 3. -/
theorem claimC4_streak_witness : calculateStreak streakTasks 19877 10 = 3 :=
  claimC4_streak streakTasks 19877 3 10 (by decide) (by decide) (by decide)

end Taskify

namespace Taskify

/-- One second while running with at least two seconds left only
decrements the remaining time. -/
theorem focusTick_step (n c : Nat) :
    focusTick ⟨n + 2, true, false, c⟩ = (⟨n + 1, true, false, c⟩ : FocusState) := by
  simp [focusTick, focusEffect]

/-- The last running second of a focus phase: the tick brings the time
to 0 and the effect performs the single transition to a stopped 5:00
break, counting one pomodoro. -/
theorem focusTick_last (c : Nat) :
    focusTick ⟨1, true, false, c⟩ = (⟨5 * 60, false, true, c + 1⟩ : FocusState) := by
  simp [focusTick, focusEffect, focusExpire]

/-- Iterating the tick consumes the running focus time one second per
tick. -/
theorem focusTick_iter_partial (k n c : Nat) :
    focusTick^[k] ⟨k + n + 1, true, false, c⟩ = (⟨n + 1, true, false, c⟩ : FocusState) := by
  induction k with
  | zero => simp
  | succ m ih =>
    rw [Function.iterate_succ_apply]
    have h1 : m + 1 + n + 1 = m + n + 2 := by omega
    rw [h1, focusTick_step]
    exact ih

/-- Running a whole focus phase of `n + 1` seconds ends in a stopped
5:00 break with exactly one more completed pomodoro. -/
theorem focusTick_iter_full (n c : Nat) :
    focusTick^[n + 1] ⟨n + 1, true, false, c⟩ = (⟨5 * 60, false, true, c + 1⟩ : FocusState) := by
  induction n with
  | zero => rw [Function.iterate_one, focusTick_last]
  | succ m ih =>
    rw [Function.iterate_succ_apply]
    have h1 : m + 1 + 1 = m + 2 := by omega
    rw [h1, focusTick_step]
    exact ih

end Taskify

namespace Taskify

/-- C5: starting in Focus with 25:00 remaining and running, each tick
decrements the remaining time by exactly 1, and when it reaches 0 the
machine performs exactly one transition: after 1500 elapsed seconds the
state is Break with 5:00 remaining, not running, and the
completed-pomodoro counter has increased by exactly 1. -/
theorem claimC5_focus_timer (c : Nat) :
    (∀ k : Nat, k < 1500 →
      focusTick^[k] ⟨25 * 60, true, false, c⟩ =
        (⟨25 * 60 - k, true, false, c⟩ : FocusState)) ∧
    focusTick^[1500] ⟨25 * 60, true, false, c⟩ =
      (⟨5 * 60, false, true, c + 1⟩ : FocusState) := by
  constructor
  · intro k hk
    have h1 : 25 * 60 = k + (1499 - k) + 1 := by omega
    have h2 : 25 * 60 - k = (1499 - k) + 1 := by omega
    rw [h2, h1, focusTick_iter_partial]
  · have h := focusTick_iter_full 1499 c
    have h1 : (1499 : Nat) + 1 = 1500 := by norm_num
    have h2 : (25 : Nat) * 60 = 1499 + 1 := by norm_num
    rw [h2, ← h1]
    exact h

/-- C5 witness: the timer run at a concrete counter value, both at an
intermediate tick and at completion. -/
theorem claimC5_focus_timer_witness :
    focusTick^[700] ⟨25 * 60, true, false, 0⟩ =
      (⟨25 * 60 - 700, true, false, 0⟩ : FocusState) ∧
    focusTick^[1500] ⟨25 * 60, true, false, 0⟩ =
      (⟨5 * 60, false, true, 1⟩ : FocusState) :=
  ⟨(claimC5_focus_timer 0).1 700 (by norm_num), (claimC5_focus_timer 0).2⟩

end Taskify

namespace Taskify

/-- The comparator model of localeCompare is nonpositive exactly for the
lexicographic order. -/
theorem strCmpInt_le_iff (a b : String) : strCmpInt a b ≤ 0 ↔ a ≤ b := by
  unfold strCmpInt
  split_ifs with h1 h2
  · exact iff_of_true (by norm_num) (le_of_lt h1)
  · exact iff_of_false (by norm_num) (not_le.mpr h2)
  · have hab : a = b := le_antisymm (not_lt.mp h2) (not_lt.mp h1)
    exact iff_of_true le_rfl (le_of_eq hab)

/-- The comparator of the list view is nonpositive exactly when the
specification's ordering holds. -/
theorem taskLe_iff (a b : Task) : taskLe a b = true ↔ specListOrder a b := by
  unfold taskLe specListOrder
  rw [decide_eq_true_eq]
  rcases lt_trichotomy a.date b.date with h | h | h
  · have h0 : strCmpInt a.date b.date = -1 := by
      unfold strCmpInt
      rw [if_pos h]
    refine iff_of_true ?_ (Or.inl h)
    unfold taskCmp
    rw [h0]
    norm_num
  · have h0 : strCmpInt a.date b.date = 0 := by
      unfold strCmpInt
      rw [if_neg (by rw [h]; exact lt_irrefl _), if_neg (by rw [h]; exact lt_irrefl _)]
    have hne : ¬ a.date < b.date := by rw [h]; exact lt_irrefl _
    unfold taskCmp
    rw [h0]
    simp only [ne_eq, not_true_eq_false, if_false]
    cases ha : a.time with
    | none =>
      cases hb : b.time with
      | none =>
        exact iff_of_true (by norm_num) (Or.inr ⟨h, trivial⟩)
      | some tb =>
        refine iff_of_false (by norm_num) ?_
        rintro (hc | ⟨-, hc⟩)
        · exact hne hc
        · exact hc
    | some ta =>
      cases hb : b.time with
      | none =>
        exact iff_of_true (by norm_num) (Or.inr ⟨h, trivial⟩)
      | some tb =>
        rw [strCmpInt_le_iff]
        constructor
        · intro hle
          exact Or.inr ⟨h, hle⟩
        · rintro (hc | ⟨-, hc⟩)
          · exact absurd hc hne
          · exact hc
  · have h0 : strCmpInt a.date b.date = 1 := by
      unfold strCmpInt
      rw [if_neg (asymm h), if_pos h]
    refine iff_of_false ?_ ?_
    · unfold taskCmp
      rw [h0]
      norm_num
    · rintro (hc | ⟨hc, -⟩)
      · exact absurd hc (asymm h)
      · exact absurd hc (ne_of_gt h)

/-- Transitivity of the time part of the list-view order. -/
theorem timeLeP_trans (x y z : Option String) :
    timeLeP x y → timeLeP y z → timeLeP x z := by
  cases x <;> cases y <;> cases z <;> simp only [timeLeP] <;> intro h1 h2 <;>
    first
    | trivial
    | exact h1.elim
    | exact h2.elim
    | exact le_trans h1 h2

/-- Totality of the time part of the list-view order. -/
theorem timeLeP_total (x y : Option String) : timeLeP x y ∨ timeLeP y x := by
  cases x <;> cases y <;> simp only [timeLeP]
  · exact Or.inl trivial
  · exact Or.inr trivial
  · exact Or.inl trivial
  · exact le_total _ _

/-- Transitivity of the list-view comparator order. -/
theorem taskLe_trans (a b c : Task) : taskLe a b → taskLe b c → taskLe a c := by
  intro h1 h2
  rw [taskLe_iff] at h1 h2 ⊢
  rcases h1 with h1 | ⟨h1, ht1⟩
  · rcases h2 with h2 | ⟨h2, -⟩
    · exact Or.inl (lt_trans h1 h2)
    · exact Or.inl (h2 ▸ h1)
  · rcases h2 with h2 | ⟨h2, ht2⟩
    · exact Or.inl (h1 ▸ h2)
    · exact Or.inr ⟨h1.trans h2, timeLeP_trans _ _ _ ht1 ht2⟩

/-- Totality of the list-view comparator order. -/
theorem taskLe_total (a b : Task) : taskLe a b || taskLe b a := by
  rw [Bool.or_eq_true]
  rcases lt_trichotomy a.date b.date with h | h | h
  · exact Or.inl ((taskLe_iff a b).mpr (Or.inl h))
  · rcases timeLeP_total a.time b.time with ht | ht
    · exact Or.inl ((taskLe_iff a b).mpr (Or.inr ⟨h, ht⟩))
    · exact Or.inr ((taskLe_iff b a).mpr (Or.inr ⟨h.symm, ht⟩))
  · exact Or.inr ((taskLe_iff b a).mpr (Or.inl h))

unseal String.ltb List.merge List.mergeSort Substring.takeWhileAux Substring.takeRightWhileAux in
/-- Concrete evaluation of the specification's list-view example. -/
theorem listView_example_eval :
    listViewTasks [taskA, taskB, taskC] "" "" "" = [taskC, taskA, taskB] := rfl

/-- C2: the list view's filtered result is sorted by the
specification's order (ascending date, then time with timed before
untimed), it is a permutation of the filtered tasks, the sort is stable
on untimed ties, and on the specification's example A, B, C the sorted
order is C, A, B. -/
theorem claimC2_listView_sort (tasks : List Task) (s e q : String) :
    List.Perm (listViewTasks tasks s e q) (filterTasks tasks s e q) ∧
    List.Pairwise specListOrder (listViewTasks tasks s e q) ∧
    (∀ a b : Task, List.Sublist [a, b] (filterTasks tasks s e q) → a.date = b.date →
      a.time = Option.none → b.time = Option.none →
      List.Sublist [a, b] (listViewTasks tasks s e q)) ∧
    listViewTasks [taskA, taskB, taskC] "" "" "" = [taskC, taskA, taskB] := by
  refine ⟨List.mergeSort_perm _ _, ?_, ?_, listView_example_eval⟩
  · have hs := List.sorted_mergeSort
      (fun a b c => taskLe_trans a b c) (fun a b => taskLe_total a b)
      (filterTasks tasks s e q)
    exact hs.imp (fun h => (taskLe_iff _ _).mp h)
  · intro a b hsub hd hta htb
    apply List.pair_sublist_mergeSort
      (fun a b c => taskLe_trans a b c) (fun a b => taskLe_total a b) ?_ hsub
    rw [taskLe_iff]
    refine Or.inr ⟨hd, ?_⟩
    rw [hta, htb]
    trivial

/-- C2 witness: the example instance extracted through the theorem. -/
theorem claimC2_listView_sort_witness :
    listViewTasks [taskA, taskB, taskC] "" "" "" = [taskC, taskA, taskB] :=
  (claimC2_listView_sort [] "" "" "").2.2.2

end Taskify

namespace Taskify

/-- Transitivity of the focus-queue priority order. -/
theorem priorityLe_trans (a b c : Task) : priorityLe a b → priorityLe b c → priorityLe a c := by
  intro h1 h2
  simp only [priorityLe, decide_eq_true_eq] at h1 h2 ⊢
  omega

/-- Totality of the focus-queue priority order. -/
theorem priorityLe_total (a b : Task) : priorityLe a b || priorityLe b a := by
  rw [Bool.or_eq_true]
  simp only [priorityLe, decide_eq_true_eq]
  omega

unseal String.ltb List.merge List.mergeSort in
/-- Concrete evaluation of the specification's end-to-end focus-queue
example. -/
theorem todayTasks_example_eval :
    (todayTasks [taskShip, taskGym] "2024-06-03").head? = Option.some taskShip := rfl

/-- C6: the focus queue consists exactly of the tasks dated today that
are incomplete, sorted by priority with urgent first, ties keeping input
order (the sort is stable); with an urgent and a low task dated today,
the urgent one is listed first. -/
theorem claimC6_focusQueue (tasks : List Task) (today : String) :
    List.Perm (todayTasks tasks today)
      (tasks.filter (fun t => t.date == today && !t.completed)) ∧
    (∀ t ∈ todayTasks tasks today, t.date = today ∧ t.completed = false) ∧
    List.Pairwise (fun a b => priorityOrder a.priority ≤ priorityOrder b.priority)
      (todayTasks tasks today) ∧
    (∀ a b : Task,
      List.Sublist [a, b] (tasks.filter (fun t => t.date == today && !t.completed)) →
      priorityOrder a.priority ≤ priorityOrder b.priority →
      List.Sublist [a, b] (todayTasks tasks today)) ∧
    (todayTasks [taskShip, taskGym] "2024-06-03").head? = Option.some taskShip := by
  refine ⟨List.mergeSort_perm _ _, ?_, ?_, ?_, todayTasks_example_eval⟩
  · intro t ht
    unfold todayTasks at ht
    rw [List.mem_mergeSort] at ht
    have hp := (List.mem_filter.mp ht).2
    simp only [Bool.and_eq_true, beq_iff_eq, Bool.not_eq_true'] at hp
    exact hp
  · have hs := List.sorted_mergeSort
      (fun a b c => priorityLe_trans a b c) (fun a b => priorityLe_total a b)
      (tasks.filter (fun t => t.date == today && !t.completed))
    exact hs.imp (fun h => by
      simpa only [priorityLe, decide_eq_true_eq] using h)
  · intro a b hsub hle
    apply List.pair_sublist_mergeSort
      (fun a b c => priorityLe_trans a b c) (fun a b => priorityLe_total a b) ?_ hsub
    simpa only [priorityLe, decide_eq_true_eq] using hle

/-- C6 witness: the example instance extracted through the theorem. -/
theorem claimC6_focusQueue_witness :
    (todayTasks [taskShip, taskGym] "2024-06-03").head? = Option.some taskShip :=
  (claimC6_focusQueue [] "").2.2.2.2

/-- The weekday index of the 1st is always in `0..6`. -/
theorem startingDayOfWeek_lt (y : Int) (m : Nat) : startingDayOfWeek y m < 7 := by
  unfold startingDayOfWeek
  have h1 : 0 ≤ (daysFromCivil y (m + 1) 1 + 4).emod 7 :=
    Int.emod_nonneg _ (by norm_num)
  have h2 : (daysFromCivil y (m + 1) 1 + 4).emod 7 < 7 :=
    Int.emod_lt_of_pos _ (by norm_num)
  omega

set_option maxHeartbeats 1000000 in
/-- Every month length is between 28 and 31 days. -/
theorem daysInMonth_bounds (y : Int) (m : Nat) :
    28 ≤ daysInMonth y m ∧ daysInMonth y m ≤ 31 := by
  unfold daysInMonth
  split_ifs <;> omega

/-- C8: for every year and month the grid is at most 42 cells: exactly
`startingDayOfWeek` leading blanks, where that count is the weekday
index of the 1st (Sunday = 0, hence below 7), followed by exactly one
cell per day in order `1..daysInMonth`, with no trailing blank cell. -/
theorem claimC8_monthGrid (y : Int) (m : Nat) (_hm : m < 12) :
    (monthGridCells y m).length ≤ 42 ∧
    (monthGridCells y m).take (startingDayOfWeek y m) =
      List.replicate (startingDayOfWeek y m) Option.none ∧
    (monthGridCells y m).drop (startingDayOfWeek y m) =
      (List.range' 1 (daysInMonth y m)).map Option.some ∧
    startingDayOfWeek y m < 7 ∧
    (∀ c ∈ (monthGridCells y m).drop (startingDayOfWeek y m), c ≠ Option.none) := by
  have hw := startingDayOfWeek_lt y m
  have hd := daysInMonth_bounds y m
  have hlen : (List.replicate (startingDayOfWeek y m) (Option.none : Option Nat)).length =
      startingDayOfWeek y m := List.length_replicate _ _
  have htake : (monthGridCells y m).take (startingDayOfWeek y m) =
      List.replicate (startingDayOfWeek y m) Option.none := by
    unfold monthGridCells
    exact List.take_left' hlen
  have hdrop : (monthGridCells y m).drop (startingDayOfWeek y m) =
      (List.range' 1 (daysInMonth y m)).map Option.some := by
    unfold monthGridCells
    exact List.drop_left' hlen
  refine ⟨?_, htake, hdrop, hw, ?_⟩
  · unfold monthGridCells
    rw [List.length_append, List.length_replicate, List.length_map, List.length_range']
    omega
  · intro c hc
    rw [hdrop] at hc
    obtain ⟨d, -, rfl⟩ := List.mem_map.mp hc
    exact Option.some_ne_none d

/-- C8 witness: the June 2024 grid (month index 5), whose 1st is a
Saturday. -/
theorem claimC8_monthGrid_witness :
    (monthGridCells 2024 5).length ≤ 42 ∧ startingDayOfWeek 2024 5 < 7 :=
  ⟨(claimC8_monthGrid 2024 5 (by norm_num)).1,
    (claimC8_monthGrid 2024 5 (by norm_num)).2.2.2.1⟩

end Taskify
